import Mathlib

/-!
Verification of the slide-transition decision engine of the
`ai-presentation-assistant` backend.

The definitions below are a shallow embedding of
`backend/app/services/slide_matcher.py`,
`backend/app/services/stt_service.py` and the audio-frame handler of
`backend/app/api/v1/websocket.py`.  Python `float` arithmetic is
idealised as exact rational arithmetic (`ℚ`); all the thresholds used by
the code (0.25, 0.5, 0.6, 0.7, 0.72, 0.85) are exactly representable, so
the idealisation agrees with the code on every comparison the theorems
touch.  Python `str.lower` is modelled by the character-wise `pyLower`
(exact on ASCII input).  Wall-clock fields (`duration_ms`, `last_activity_time`)
and logging calls carry no decision-relevant information and are
omitted.  The external Whisper / embedding calls are modelled by
explicit outcome parameters (`Except` values, semantic-score oracles),
exactly at the boundary where the code awaits them.
-/

/-- The whitespace characters recognised by Python's `str.split()` /
`str.strip()` on the inputs this service sees. -/
def pySpaceChars : List Char := [' ', '\t', '\n', '\x0d', '\x0b', '\x0c']

def pyIsSpace (c : Char) : Bool := pySpaceChars.contains c

/-- Python `s.strip(chars)`: drop the given characters from both ends. -/
def pyStripChars (cs : List Char) (l : List Char) : List Char :=
  ((l.dropWhile (fun c => cs.contains c)).reverse.dropWhile
    (fun c => cs.contains c)).reverse

/-- Python `s.strip()` (whitespace on both ends). -/
def pyStrip (s : String) : String := String.mk (pyStripChars pySpaceChars s.toList)

/-- Python `s.lower()`, modelled character-wise (exact on the ASCII
range; written structurally so that concrete evaluations reduce in the
kernel). -/
def pyLower (s : String) : String := String.mk (s.toList.map Char.toLower)

/-- Python `s.split()` with no argument: maximal runs of non-whitespace. -/
def pySplitWs (s : String) : List String :=
  ((s.toList.splitOnP pyIsSpace).filter (fun w => w ≠ [])).map String.mk

/-- Boolean prefix test on character lists. -/
def listPrefixOf : List Char → List Char → Bool
  | [], _ => true
  | _ :: _, [] => false
  | a :: as, b :: bs => a == b && listPrefixOf as bs

/-- Boolean contiguous-sublist test on character lists. -/
def listInfixOf (needle : List Char) (hay : List Char) : Bool :=
  match hay with
  | [] => needle.isEmpty
  | _ :: tl => listPrefixOf needle hay || listInfixOf needle tl

/-- Python substring containment `needle in hay`. -/
def substr (needle hay : String) : Bool := listInfixOf needle.toList hay.toList

/-- Multiplication on ℚ written through `Rat.divInt` so that concrete
confidence values reduce inside the kernel (`Rat.mul` is irreducible);
`qmul_eq_mul` below shows it is multiplication. -/
def qmul (a b : ℚ) : ℚ := Rat.divInt (a.num * b.num) ((a.den : ℤ) * (b.den : ℤ))

/-- Python list slicing `l[start:stop]` (step 1), with the negative-index
wrap-around and clipping rules of CPython. -/
def pySlice (l : List α) (start stop : Int) : List α :=
  let n : Int := l.length
  let s : Int := if start < 0 then max (n + start) 0 else min start n
  let e : Int := if stop < 0 then max (n + stop) 0 else min stop n
  (l.drop s.toNat).take (e - s).toNat

-- ── Data model (slide_matcher.py) ──

/-- `MatchType` — how the slide transition was triggered. -/
inductive MatchType where
  | keyword
  | transition_phrase
  | semantic
  | voice_command
  | manual
  | none
deriving DecidableEq, Repr

/-- `SlideMatchResult` — result of matching transcript against slides. -/
structure SlideMatchResult where
  should_advance : Bool
  match_type : MatchType
  confidence : ℚ
  target_slide : Int
  current_slide : Int
  matched_keywords : List String := []
  debug_info : String := ""
deriving DecidableEq, Repr

/-- `SlideContext` — pre-computed context for a single slide. -/
structure SlideContext where
  page_number : Int
  content_text : String
  keywords : List String := []
  transition_phrases : List String := []
  embedding : Option (List ℚ) := Option.none
deriving DecidableEq, Repr

/-- `PresentationContext` — runtime context for an entire presentation
(`current_slide_index` is a Python `int`, hence `Int`). -/
structure PresentationContext where
  presentation_id : Int
  slides : List SlideContext := []
  current_slide_index : Int := 0
deriving DecidableEq, Repr

/-- `PresentationContext.current_slide` property. -/
def PresentationContext.current_slide (ctx : PresentationContext) :
    Option SlideContext :=
  if 0 ≤ ctx.current_slide_index then
    ctx.slides.get? ctx.current_slide_index.toNat
  else
    Option.none

/-- `PresentationContext.is_last_slide` property. -/
def PresentationContext.is_last_slide (ctx : PresentationContext) : Bool :=
  ctx.current_slide_index ≥ (ctx.slides.length : Int) - 1

/-- `PresentationContext.get_lookahead_slides`: the slice
`slides[current_slide_index+1 : min(current_slide_index+1+count, len)]`. -/
def PresentationContext.get_lookahead_slides (ctx : PresentationContext)
    (count : Int := 2) : List SlideContext :=
  let start := ctx.current_slide_index + 1
  pySlice ctx.slides start (min (start + count) (ctx.slides.length : Int))

/-- `PresentationContext.advance_to`: move to the slide with the given
page number; returns the success flag and the updated context. -/
def PresentationContext.advance_to (ctx : PresentationContext)
    (page_number : Int) : Bool × PresentationContext :=
  match ctx.slides.findIdx? (fun s => s.page_number = page_number) with
  | some i => (true, { ctx with current_slide_index := (i : Int) })
  | Option.none => (false, ctx)

/-- `PresentationContext.advance_next`. -/
def PresentationContext.advance_next (ctx : PresentationContext) :
    Bool × PresentationContext :=
  if !ctx.is_last_slide then
    (true, { ctx with current_slide_index := ctx.current_slide_index + 1 })
  else (false, ctx)

/-- `PresentationContext.go_previous`. -/
def PresentationContext.go_previous (ctx : PresentationContext) :
    Bool × PresentationContext :=
  if 0 < ctx.current_slide_index then
    (true, { ctx with current_slide_index := ctx.current_slide_index - 1 })
  else (false, ctx)

-- ── Layer 0: voice commands ──

/-- The `VOICE_COMMANDS` table, in Python dict insertion order (the scan
order of `detect_voice_command`). -/
def VOICE_COMMANDS : List (String × List String) :=
  [("next",
    ["sonraki slayt", "sonraki sayfa", "ileri",
     "sonrakine geç", "devam et", "devam",
     "bir sonraki", "ilerle", "geç",
     "next slide", "next page", "go forward",
     "move on", "continue", "next one", "advance"]),
   ("previous",
    ["önceki slayt", "önceki sayfa", "geri",
     "bir önceki", "geri dön", "geri git",
     "previous slide", "previous page", "go back",
     "go backward", "back one"]),
   ("first",
    ["ilk slayt", "başa dön", "en başa",
     "first slide", "go to start", "beginning"]),
   ("last",
    ["son slayt", "sona git", "en sona",
     "last slide", "go to end"])]

/-- `detect_voice_command`: strip + lowercase, skip texts longer than 100
characters, then return the first command class one of whose phrases is
contained in the text. -/
def detect_voice_command (transcript : String) : Option String :=
  let text := pyLower (pyStrip transcript)
  if text.length > 100 then Option.none
  else
    (VOICE_COMMANDS.find? (fun p => p.2.any (fun ph => substr ph text))).map
      (fun p => p.1)

-- ── Layer 1 (upload time): keyword extraction ──

/-- The Turkish letters the cleaning regex keeps besides `\w` and `\s`. -/
def turkishChars : List Char :=
  ['ç', 'ğ', 'ı', 'ö', 'ş', 'ü', 'â', 'î', 'û', 'Ç', 'Ğ', 'İ', 'Ö', 'Ş', 'Ü']

/-- One character of the regex class `[\w\sçğıöşüâîûÇĞİÖŞÜ]` (`\w`
modelled as ASCII word characters; the explicit Turkish letters cover
the non-ASCII alphabet the code targets). -/
def keepChar (c : Char) : Bool :=
  c.isAlphanum || c == '_' || pyIsSpace c || turkishChars.contains c

/-- `re.sub(r'[^\w\s…]', ' ', s)`: replace every other character by a
space. -/
def cleanText (s : String) : String :=
  String.mk (s.toList.map (fun c => if keepChar c then c else ' '))

/-- The bilingual stop-word set of `extract_keywords_from_text`
(the source lists "olan" twice; set semantics make that harmless). -/
def STOPWORDS : List String :=
  ["bir", "ve", "bu", "da", "de", "ile", "için", "gibi",
   "olan", "olarak", "daha", "en", "çok", "her", "ama",
   "ancak", "veya", "ya", "hem", "ne", "nasıl", "kadar",
   "sonra", "önce", "üzere", "göre", "ayrıca", "ise",
   "var", "yok", "olan", "oldu", "olur", "olmak",
   "den", "dan", "nin", "nın", "nun", "nün",
   "dir", "dır", "dur", "dür", "tir", "tır", "tur", "tür",
   "the", "and", "is", "in", "to", "of", "for", "a", "an",
   "that", "this", "with", "are", "was", "be", "has", "have",
   "it", "not", "on", "at", "by", "from", "or", "but", "as",
   "can", "will", "do", "if", "so", "we", "you", "they",
   "our", "your", "its", "all", "also", "more", "about",
   "how", "what", "when", "which", "who", "than", "then",
   "slide", "slayt", "sayfa", "page", "notes", "notlar"]

/-- Python `w.isdigit()` for the ASCII digits the tokenizer can produce. -/
def pyIsDigitStr (w : String) : Bool :=
  !w.toList.isEmpty && w.toList.all Char.isDigit

/-- The survival filter of `extract_keywords_from_text`:
`len(w) > 2 and w not in stopwords and not w.isdigit()`. -/
def kwAllowed (w : String) : Bool :=
  w.length > 2 && !STOPWORDS.contains w && !pyIsDigitStr w

/-- Count a word into an insertion-ordered frequency association list
(the model of `word_freq[w] = word_freq.get(w, 0) + 1` on a Python dict,
whose iteration order is insertion order). -/
def bumpFreq : List (String × ℕ) → String → List (String × ℕ)
  | [], w => [(w, 1)]
  | (x, n) :: rest, w =>
      if x = w then (x, n + 1) :: rest else (x, n) :: bumpFreq rest w

/-- The `word_freq` dict of `extract_keywords_from_text`, as an
insertion-ordered association list. -/
def wordFreqList (text : String) : List (String × ℕ) :=
  (pySplitWs (cleanText (pyLower text))).foldl
    (fun acc w => if kwAllowed w then bumpFreq acc w else acc) []

/-- Comparing the scores `freq × log2(max(len,2))` of two entries is
comparing `max(len,2) ^ freq` (log2 is strictly monotone), which keeps
the ranking in exact integer arithmetic.  Entries carry their dict
insertion position in the first component. -/
def entScore (e : ℕ × String × ℕ) : ℕ := (max e.2.1.length 2) ^ e.2.2

/-- `a` comes before `b` in the ranking: higher score first, ties by
dict insertion position (Python's `sort` is stable, so a stable
descending sort by score equals a sort by (score desc, position asc)). -/
def entBefore (a b : ℕ × String × ℕ) : Bool :=
  entScore b < entScore a || (entScore a == entScore b && a.1 ≤ b.1)

/-- Insert into a list ranked by `entBefore`. -/
def insertRanked (x : ℕ × String × ℕ) :
    List (ℕ × String × ℕ) → List (ℕ × String × ℕ)
  | [] => [x]
  | y :: ys => if entBefore x y then x :: y :: ys else y :: insertRanked x ys

/-- Sort by `entBefore` (insertion sort). -/
def rankDesc (l : List (ℕ × String × ℕ)) : List (ℕ × String × ℕ) :=
  l.foldr insertRanked []

/-- `extract_keywords_from_text` (slide_matcher.py). -/
def extract_keywords_from_text (text : String) (max_keywords : ℕ := 15) :
    List String :=
  if pyStrip text = "" then []
  else
    let wf := wordFreqList text
    if wf = [] then []
    else ((rankDesc wf.enum).take max_keywords).map (fun e => e.2.1)

-- ── Layer 1 (runtime): keyword matching ──

/-- `match_keywords` (slide_matcher.py). -/
def match_keywords (transcript : String) (slide_keywords : List String)
    (threshold : ℕ := 3) : ℚ × List String :=
  if transcript = "" ∨ slide_keywords = [] then (0, [])
  else
    let text_lower := pyLower transcript
    let matched := slide_keywords.filter (fun kw => substr kw text_lower)
    if matched.length < threshold then (0, matched)
    else
      (min (mkRat matched.length (max slide_keywords.length 1)) 1, matched)

-- ── Layer 2 (runtime): transition phrase matching ──

/-- The `phrase_words` local of `match_transition_phrases`:
`set(phrase.lower().split())` (only its cardinality and membership are
used, so an order-preserving dedup models the Python set). -/
def phrase_words (p : String) : List String := (pySplitWs (pyLower p)).dedup

/-- The `ratio` local of `match_transition_phrases`:
`matched_words / len(phrase_words)`, where `matched_words` counts the
distinct phrase words contained in the lowercased transcript. -/
def phrase_word_ratio (transcript p : String) : ℚ :=
  mkRat ((phrase_words p).filter
      (fun w => substr w (pyLower transcript))).length
    (phrase_words p).length

/-- `match_transition_phrases` (slide_matcher.py).  The partial-match
loop carries `(best_score, best_phrase)`; note that the raw word ratio
of a candidate phrase is compared against the already-scaled
`best_score` (the `× 0.7` happens on assignment), exactly as in the
source. -/
def match_transition_phrases (transcript : String)
    (transition_phrases : List String) : ℚ × String :=
  if transcript = "" ∨ transition_phrases = [] then (0, "")
  else
    let text_lower := pyLower transcript
    match transition_phrases.find? (fun p => substr (pyLower p) text_lower) with
    | some p => (mkRat 17 20, p)
    | Option.none =>
        transition_phrases.foldl
          (fun acc p =>
            if (phrase_words p).length < 2 then acc
            else
              if phrase_word_ratio transcript p > mkRat 3 5 ∧
                  phrase_word_ratio transcript p > acc.1 then
                (qmul (phrase_word_ratio transcript p) (mkRat 7 10), p)
              else acc)
          ((0 : ℚ), "")

-- ── Layer 3 (runtime): semantic similarity ──

/-- Sum of squares of a rational vector. -/
def sumSq (v : List ℚ) : ℚ := v.foldl (fun s a => s + a * a) 0

/-- Dot product of two rational vectors (`zip` truncates like Python's). -/
def dotProd (va vb : List ℚ) : ℚ :=
  (va.zip vb).foldl (fun s p => s + p.1 * p.2) 0

/-- `cosine_similarity` (slide_matcher.py), with float arithmetic
idealised over ℝ.  `magnitude == 0` is `Real.sqrt (sumSq v) = 0`; the
`.error` branch models the `ZeroDivisionError` Python would raise if the
division `dot / (mag_a * mag_b)` ran with a zero denominator — the
theorems show it is unreachable. -/
noncomputable def cosine_similarity (vec_a vec_b : List ℚ) :
    Except String ℝ :=
  if vec_a = [] ∨ vec_b = [] ∨ vec_a.length ≠ vec_b.length then .ok 0
  else
    let magnitude_a := Real.sqrt ((sumSq vec_a : ℚ) : ℝ)
    let magnitude_b := Real.sqrt ((sumSq vec_b : ℚ) : ℝ)
    if magnitude_a = 0 ∨ magnitude_b = 0 then .ok 0
    else if magnitude_a * magnitude_b = 0 then .error "division by zero"
    else .ok (((dotProd vec_a vec_b : ℚ) : ℝ) / (magnitude_a * magnitude_b))

-- ── Main matching engine (match_transcript_to_slides) ──

/-- The thresholds of slide_matcher.py, exact. -/
def KEYWORD_MATCH_THRESHOLD : ℕ := 3

def KEYWORD_CONFIDENCE_THRESHOLD : ℚ := mkRat 1 4

def TRANSITION_CONFIDENCE_THRESHOLD : ℚ := mkRat 1 2

def SEMANTIC_CONFIDENCE_THRESHOLD : ℚ := mkRat 18 25

/-- The Layer-1 loop of `match_transcript_to_slides`: first lookahead
slide whose keyword confidence reaches the threshold, with its
confidence and matched keywords. -/
def scanKeywordLayer (transcript : String) :
    List SlideContext → Option (SlideContext × ℚ × List String)
  | [] => Option.none
  | s :: rest =>
      let r := match_keywords transcript s.keywords KEYWORD_MATCH_THRESHOLD
      if r.1 ≥ KEYWORD_CONFIDENCE_THRESHOLD then some (s, r.1, r.2)
      else scanKeywordLayer transcript rest

/-- The Layer-2 loop of `match_transcript_to_slides`: first lookahead
slide whose transition-phrase confidence reaches the threshold. -/
def scanPhraseLayer (transcript : String) :
    List SlideContext → Option (SlideContext × ℚ × String)
  | [] => Option.none
  | s :: rest =>
      let r := match_transition_phrases transcript s.transition_phrases
      if r.1 ≥ TRANSITION_CONFIDENCE_THRESHOLD then some (s, r.1, r.2)
      else scanPhraseLayer transcript rest

/-- The Layer-3 accumulator: running best semantic score and slide.
Slides with a missing or empty embedding are skipped (`if
slide.embedding:`). -/
def semStep (sem : String → List ℚ → ℚ) (transcript : String)
    (acc : ℚ × Option SlideContext) (s : SlideContext) :
    ℚ × Option SlideContext :=
  match s.embedding with
  | some e =>
      if e ≠ [] then
        if sem transcript e > acc.1 then (sem transcript e, some s) else acc
      else acc
  | Option.none => acc

/-- The local `current_page` of `match_transcript_to_slides`:
`context.current_slide.page_number if context.current_slide else 1`. -/
def currentPage (context : PresentationContext) : Int :=
  match context.current_slide with
  | some s => s.page_number
  | Option.none => 1

/-- The "no match found" result of `match_transcript_to_slides`. -/
def noMatchResult (current_page : Int) : SlideMatchResult :=
  { should_advance := false
    match_type := MatchType.none
    confidence := 0
    target_slide := current_page
    current_slide := current_page }

/-- Layers 1-3 of `match_transcript_to_slides` (reached when Layer 0
produced no successful voice command): lookahead guard, keyword scan,
transition-phrase scan, then — with `use_semantic` — the best-scoring
embedded lookahead slide against the semantic threshold. -/
def content_layers (sem : String → List ℚ → ℚ) (transcript : String)
    (context : PresentationContext) (use_semantic : Bool)
    (current_page : Int) : SlideMatchResult :=
  let lookahead := context.get_lookahead_slides 3
  if lookahead = [] then
    { noMatchResult current_page with debug_info := "last_slide_reached" }
  else
    match scanKeywordLayer transcript lookahead with
    | some (s, c, m) =>
        { should_advance := true
          match_type := MatchType.keyword
          confidence := c
          target_slide := s.page_number
          current_slide := current_page
          matched_keywords := m }
    | Option.none =>
      match scanPhraseLayer transcript lookahead with
      | some (s, c, p) =>
          { should_advance := true
            match_type := MatchType.transition_phrase
            confidence := c
            target_slide := s.page_number
            current_slide := current_page
            debug_info := p }
      | Option.none =>
        if use_semantic then
          match (lookahead.foldl (semStep sem transcript)
              ((0 : ℚ), (Option.none : Option SlideContext))).2 with
          | some s =>
              if (lookahead.foldl (semStep sem transcript)
                  ((0 : ℚ), (Option.none : Option SlideContext))).1 ≥
                  SEMANTIC_CONFIDENCE_THRESHOLD then
                { should_advance := true
                  match_type := MatchType.semantic
                  confidence := (lookahead.foldl (semStep sem transcript)
                    ((0 : ℚ), (Option.none : Option SlideContext))).1
                  target_slide := s.page_number
                  current_slide := current_page }
              else noMatchResult current_page
          | Option.none => noMatchResult current_page
        else noMatchResult current_page

/-- The Layer-0 block of `match_transcript_to_slides` for a detected
command: resolve the target and the success flag from the cursor;
`some` verdict on success, `none` (fall through) otherwise. -/
def voice_layer (command : String) (context : PresentationContext)
    (current_page : Int) : Option SlideMatchResult :=
  let ts : Int × Bool :=
    if command = "next" then
      (current_page + 1, !context.is_last_slide)
    else if command = "previous" then
      (current_page - 1, decide (0 < context.current_slide_index))
    else if command = "first" then (1, true)
    else if command = "last" then
      ((context.slides.length : Int), true)
    else (current_page, false)
  if ts.2 then
    some { should_advance := true
           match_type := MatchType.voice_command
           confidence := 1
           target_slide := ts.1
           current_slide := current_page
           debug_info := "voice_command=" ++ command }
  else Option.none

/-- `match_transcript_to_slides` (slide_matcher.py).  `sem` is the
semantic-similarity oracle standing for
`compute_semantic_similarity(transcript, embedding)` — an external
embedding call whose score the theorems quantify over. -/
def match_transcript_to_slides (sem : String → List ℚ → ℚ)
    (transcript : String) (context : PresentationContext)
    (use_semantic : Bool := true) : SlideMatchResult :=
  let current_page := currentPage context
  let voice : Option SlideMatchResult :=
    match detect_voice_command transcript with
    | some command => voice_layer command context current_page
    | Option.none => Option.none
  match voice with
  | some r => r
  | Option.none => content_layers sem transcript context use_semantic current_page

-- ── Transcription session state (stt_service.py) ──

/-- `TranscriptionResult` (stt_service.py); the wall-clock field
`duration_ms` and the constant-`False`/`1.0` fields `is_partial` /
`confidence` are never read by the session logic and are omitted. -/
structure TranscriptionResult where
  text : String
  language : String
  chunk_index : ℕ := 0
deriving DecidableEq, Repr

/-- `TranscriptionResult.is_empty`: trimmed text, after also stripping
trailing/leading periods, has zero length. -/
def TranscriptionResult.is_empty (r : TranscriptionResult) : Bool :=
  (pyStripChars ['.'] (pyStrip r.text).toList).isEmpty

/-- `STTSessionState` (stt_service.py); the wall-clock field
`last_activity_time` is omitted. -/
structure STTSessionState where
  session_id : String := ""
  language : String := "auto"
  detected_language : Option String := Option.none
  chunk_counter : ℕ := 0
  total_transcribed_text : String := ""
  last_transcript : String := ""
  transcript_window : List String := []
  window_size : ℕ := 3
deriving DecidableEq, Repr

/-- `STTSessionState.add_transcript`: increments the counter
unconditionally, records the last transcript, and appends non-blank text
to the window (evicting the oldest entry past `window_size`) and to the
unbounded accumulator. -/
def STTSessionState.add_transcript (s : STTSessionState) (text : String) :
    STTSessionState :=
  let s := { s with
    chunk_counter := s.chunk_counter + 1
    last_transcript := text }
  if pyStrip text ≠ "" then
    let w := s.transcript_window ++ [pyStrip text]
    { s with
      total_transcribed_text := s.total_transcribed_text ++ " " ++ pyStrip text
      transcript_window := if w.length > s.window_size then w.drop 1 else w }
  else s

/-- `STTSessionState.get_recent_context`. -/
def STTSessionState.get_recent_context (s : STTSessionState) : String :=
  String.intercalate " " s.transcript_window

/-- `transcribe_with_session` (stt_service.py), parametrised by the
outcome of the inner `transcribe_audio` call (an external Whisper call
that either returns a result or raises `STTError`).  On an error the
exception propagates and the session is untouched; on success the
session is updated exactly as in the source. -/
def transcribe_with_session (session : STTSessionState)
    (outcome : Except String TranscriptionResult) :
    STTSessionState × Except String TranscriptionResult :=
  match outcome with
  | .error e => (session, .error e)
  | .ok result =>
      let s1 := session.add_transcript result.text
      let s2 :=
        if s1.detected_language = Option.none ∧ !result.is_empty then
          { s1 with detected_language := some result.language }
        else s1
      (s2, .ok result)

-- ── Live session orchestrator: binary-frame handling (websocket.py) ──

/-- One server→client event, as emitted by `ws_send` in the audio-frame
branch of `websocket_presentation` (payload fields carry what the claims
inspect). -/
inductive WsEvent where
  | status (s : String)
  | transcript (text : String) (chunk_index : ℕ) (is_empty : Bool)
  | slide_change (slide : Int) (match_type : MatchType) (confidence : ℚ)
  | error (message : String)
deriving DecidableEq, Repr

/-- The ways the `try` block of the audio branch can fail: the
transcription call raises `STTError`, the matching step raises
`SlideMatchError`, or something else raises. -/
inductive ProcError where
  | stt (message : String)
  | slideMatch (message : String)
  | other (message : String)
deriving DecidableEq, Repr

/-- The joint outcome of the two awaited steps inside the `try` block of
the audio branch: the transcription outcome, and (reached only for a
non-empty transcript) the matching outcome. -/
structure FrameOutcome where
  transcription : Except ProcError TranscriptionResult
  matching : Except ProcError SlideMatchResult
deriving Repr

/-- The audio-frame branch of `websocket_presentation`
(websocket.py lines 376-462), as the list of events it emits and whether
it closes the connection.  Frames are dropped while not listening or
under 500 bytes; otherwise a `processing` status is emitted, then the
`try` block runs: transcription (its error caught as `STTError` →
`error` + `listening` events), the transcript event, then — for a
non-empty transcript — matching (its `SlideMatchError` caught with only
a `listening` status event; any other error caught with a generic
`error` event + `listening`), a `slide_change` event when the verdict
advances, and a final `listening` status.  No branch closes the
connection. -/
def process_audio_frame (is_listening : Bool) (frame_bytes : ℕ)
    (outcome : FrameOutcome) : List WsEvent × Bool :=
  if !is_listening then ([], false)
  else if frame_bytes < 500 then ([], false)
  else
    let onError : ProcError → List WsEvent := fun e =>
      match e with
      | .stt m =>
          [WsEvent.error ("Transcription failed: " ++ m),
           WsEvent.status "listening"]
      | .slideMatch _ => [WsEvent.status "listening"]
      | .other _ =>
          [WsEvent.error "Processing error occurred",
           WsEvent.status "listening"]
    let body : List WsEvent :=
      match outcome.transcription with
      | .error e => onError e
      | .ok r =>
          WsEvent.transcript r.text r.chunk_index r.is_empty ::
          (if !r.is_empty then
            match outcome.matching with
            | .error e => onError e
            | .ok m =>
                (if m.should_advance then
                  [WsEvent.slide_change m.target_slide m.match_type
                    m.confidence]
                else []) ++ [WsEvent.status "listening"]
          else [WsEvent.status "listening"])
    (WsEvent.status "processing" :: body, false)

-- ── Bridge lemmas ──

/-- `qmul` is multiplication on ℚ. -/
theorem qmul_eq_mul (a b : ℚ) : qmul a b = a * b := by
  rw [qmul,
    ← Rat.divInt_mul_divInt a.num b.num
      (by exact_mod_cast a.den_nz) (by exact_mod_cast b.den_nz),
    Rat.num_divInt_den, Rat.num_divInt_den]

/-- `mkRat m k` is the ratio `m / k` (the shape the spec states
confidences in). -/
theorem mkRat_cast_div (m k : ℕ) : (mkRat m k : ℚ) = (m : ℚ) / (k : ℚ) := by
  rw [Rat.mkRat_eq_divInt, Rat.divInt_eq_div]
  push_cast
  ring

-- ── Helper lemmas on the scan loops ──

theorem scanKeywordLayer_mem {t : String} {l : List SlideContext}
    {s : SlideContext} {c : ℚ} {m : List String}
    (h : scanKeywordLayer t l = some (s, c, m)) : s ∈ l := by
  induction l with
  | nil => simp [scanKeywordLayer] at h
  | cons a rest ih =>
      rw [scanKeywordLayer] at h
      by_cases hc :
          (match_keywords t a.keywords KEYWORD_MATCH_THRESHOLD).1 ≥
            KEYWORD_CONFIDENCE_THRESHOLD
      · simp only [hc, if_pos] at h
        cases h
        exact List.mem_cons_self _ _
      · simp only [hc, if_neg, if_false] at h
        exact List.mem_cons_of_mem _ (ih h)

theorem scanPhraseLayer_mem {t : String} {l : List SlideContext}
    {s : SlideContext} {c : ℚ} {p : String}
    (h : scanPhraseLayer t l = some (s, c, p)) : s ∈ l := by
  induction l with
  | nil => simp [scanPhraseLayer] at h
  | cons a rest ih =>
      rw [scanPhraseLayer] at h
      by_cases hc :
          (match_transition_phrases t a.transition_phrases).1 ≥
            TRANSITION_CONFIDENCE_THRESHOLD
      · simp only [hc, if_pos] at h
        cases h
        exact List.mem_cons_self _ _
      · simp only [hc, if_neg, if_false] at h
        exact List.mem_cons_of_mem _ (ih h)

theorem semStep_snd {sem : String → List ℚ → ℚ} {t : String}
    {acc : ℚ × Option SlideContext} {a s : SlideContext}
    (h : (semStep sem t acc a).2 = some s) : s = a ∨ acc.2 = some s := by
  unfold semStep at h
  split at h
  · split at h
    · split at h
      · cases h
        exact Or.inl rfl
      · exact Or.inr h
    · exact Or.inr h
  · exact Or.inr h

theorem foldl_semStep_mem {sem : String → List ℚ → ℚ} {t : String}
    {l : List SlideContext} {acc : ℚ × Option SlideContext}
    {s : SlideContext}
    (h : (l.foldl (semStep sem t) acc).2 = some s) :
    s ∈ l ∨ acc.2 = some s := by
  induction l generalizing acc with
  | nil => exact Or.inr h
  | cons a rest ih =>
      rw [List.foldl_cons] at h
      rcases ih h with hmem | hacc
      · exact Or.inl (List.mem_cons_of_mem _ hmem)
      · rcases semStep_snd hacc with rfl | h2
        · exact Or.inl (List.mem_cons_self _ _)
        · exact Or.inr h2

-- ── Fixtures used by concrete counterexamples / witnesses ──

/-- A content-free slide with the given page number. -/
def bareSlide (p : Int) : SlideContext := { page_number := p, content_text := "" }

/-- A two-slide deck with the cursor on the last slide. -/
def lastCtx : PresentationContext :=
  { presentation_id := 1
    slides := [bareSlide 1, bareSlide 2]
    current_slide_index := 1 }

/-- A semantic oracle returning score 0 for everything (the semantic
layer then never fires). -/
def semZero : String → List ℚ → ℚ := fun _ _ => 0

-- ── C1 ──

/-- C1 counterexample: on the last slide of a two-slide deck the
transcript "first slide" is a Layer-0 voice command, and the matcher
returns `shouldAdvance = true` with layer `voice_command` — not the
`matchLayer = none`, `shouldAdvance = false` verdict the claim promises
for every transcript. -/
theorem C1_counterexample :
    lastCtx.is_last_slide = true ∧
    (match_transcript_to_slides semZero "first slide" lastCtx true).should_advance
      = true ∧
    (match_transcript_to_slides semZero "first slide" lastCtx true).match_type
      = MatchType.voice_command := by
  decide

/-- C1 (amended): whenever the cursor is on the last slide,
`get_lookahead_slides n` is empty for every `n`, and for every
transcript that contains no voice-command phrase the matcher returns
`matchLayer = none` and `shouldAdvance = false` (a successful voice
command — `first`, `last`, or `previous` with a predecessor — can still
advance from the last slide). -/
theorem C1_last_slide_behaviour (ctx : PresentationContext)
    (h : ctx.is_last_slide = true) :
    (∀ n : Int, ctx.get_lookahead_slides n = []) ∧
    (∀ (sem : String → List ℚ → ℚ) (t : String) (u : Bool),
      detect_voice_command t = Option.none →
      (match_transcript_to_slides sem t ctx u).should_advance = false ∧
      (match_transcript_to_slides sem t ctx u).match_type = MatchType.none) := by
  have hi : (ctx.slides.length : Int) - 1 ≤ ctx.current_slide_index := by
    simpa [PresentationContext.is_last_slide, ge_iff_le,
      decide_eq_true_eq] using h
  have hL : (0 : Int) ≤ (ctx.slides.length : Int) := Int.ofNat_nonneg _
  have hstart : (ctx.slides.length : Int) ≤ ctx.current_slide_index + 1 := by
    omega
  have hla : ∀ n : Int, ctx.get_lookahead_slides n = [] := by
    intro n
    unfold PresentationContext.get_lookahead_slides pySlice
    have h0 : ¬ (ctx.current_slide_index + 1 < 0) := by omega
    simp only [h0, if_neg, if_false]
    have hs : min (ctx.current_slide_index + 1) (ctx.slides.length : Int)
        = (ctx.slides.length : Int) := min_eq_right hstart
    rw [hs]
    have he :
        (if min (ctx.current_slide_index + 1 + n) (ctx.slides.length : Int) < 0
          then max ((ctx.slides.length : Int) +
            min (ctx.current_slide_index + 1 + n) (ctx.slides.length : Int)) 0
          else min (min (ctx.current_slide_index + 1 + n)
            (ctx.slides.length : Int)) (ctx.slides.length : Int)) -
          (ctx.slides.length : Int) ≤ 0 := by
      split <;> omega
    rw [Int.toNat_eq_zero.mpr he, List.take_zero]
  refine ⟨hla, ?_⟩
  intro sem t u hdv
  have hla3 := hla 3
  constructor <;>
    simp only [match_transcript_to_slides, content_layers, noMatchResult, hdv,
      hla3, if_pos, reduceCtorEq, if_true]

/-- C1 witness: concrete last-slide deck; lookahead is empty for `n = 7`
and the matcher holds still on transcript "hello". -/
theorem C1_witness :
    lastCtx.get_lookahead_slides 7 = [] ∧
    (match_transcript_to_slides semZero "hello" lastCtx true).should_advance
      = false :=
  ⟨(C1_last_slide_behaviour lastCtx (by decide)).1 7,
   ((C1_last_slide_behaviour lastCtx (by decide)).2 semZero "hello" true
      (by decide)).1⟩

-- ── C2 ──

theorem content_layers_advance
    (sem : String → List ℚ → ℚ) (t : String) (ctx : PresentationContext)
    (u : Bool) (cp : Int)
    (h : (content_layers sem t ctx u cp).should_advance = true) :
    (content_layers sem t ctx u cp).target_slide ∈
      (ctx.get_lookahead_slides 3).map SlideContext.page_number ∧
    (content_layers sem t ctx u cp).match_type ≠ MatchType.voice_command := by
  unfold content_layers at h ⊢
  by_cases hla : ctx.get_lookahead_slides 3 = []
  · rw [if_pos hla] at h
    simp [noMatchResult] at h
  · rw [if_neg hla] at h ⊢
    cases hsk : scanKeywordLayer t (ctx.get_lookahead_slides 3) with
    | some v =>
        obtain ⟨s, c, m⟩ := v
        simp only [hsk] at h ⊢
        exact ⟨List.mem_map_of_mem _ (scanKeywordLayer_mem hsk), by simp⟩
    | none =>
        simp only [hsk] at h ⊢
        cases hsp : scanPhraseLayer t (ctx.get_lookahead_slides 3) with
        | some v =>
            obtain ⟨s, c, p⟩ := v
            simp only [hsp] at h ⊢
            exact ⟨List.mem_map_of_mem _ (scanPhraseLayer_mem hsp), by simp⟩
        | none =>
            simp only [hsp] at h ⊢
            cases u with
            | false => simp [noMatchResult] at h
            | true =>
                simp only [if_true] at h ⊢
                cases hbs : ((ctx.get_lookahead_slides 3).foldl
                    (semStep sem t)
                    ((0 : ℚ), (Option.none : Option SlideContext))).2 with
                | some s =>
                    simp only [hbs] at h ⊢
                    by_cases hge : ((ctx.get_lookahead_slides 3).foldl
                        (semStep sem t)
                        ((0 : ℚ), (Option.none : Option SlideContext))).1 ≥
                        SEMANTIC_CONFIDENCE_THRESHOLD
                    · rw [if_pos hge] at h ⊢
                      refine ⟨?_, by simp⟩
                      rcases foldl_semStep_mem hbs with hs | habs
                      · exact List.mem_map_of_mem _ hs
                      · simp at habs
                    · rw [if_neg hge] at h
                      simp [noMatchResult] at h
                | none =>
                    simp only [hbs] at h
                    simp [noMatchResult] at h

theorem voice_layer_some {command : String} {ctx : PresentationContext}
    {cp : Int} {r : SlideMatchResult}
    (h : voice_layer command ctx cp = some r) :
    r.should_advance = true ∧ r.match_type = MatchType.voice_command ∧
    r.confidence = 1 ∧ r.current_slide = cp ∧
    (r.target_slide = cp + 1 ∨ r.target_slide = cp - 1 ∨
      r.target_slide = 1 ∨ r.target_slide = (ctx.slides.length : Int)) := by
  unfold voice_layer at h
  dsimp only at h
  repeat' split at h
  all_goals
    first
      | (obtain rfl := Option.some.inj h
         exact ⟨rfl, rfl, rfl, rfl, by simp_all⟩)
      | simp at h

/-- A four-slide deck (pages 1-4) with the cursor on page 3. -/
def midCtx : PresentationContext :=
  { presentation_id := 1
    slides := [bareSlide 1, bareSlide 2, bareSlide 3, bareSlide 4]
    current_slide_index := 2 }

/-- C2 counterexample: on page 3 of a four-page deck the transcript
"go back" triggers the `previous` voice command with target page 2,
which is neither a lookahead page (the lookahead is `[4]`), nor the
first page (1), nor the last page (4). -/
theorem C2_counterexample :
    (match_transcript_to_slides semZero "go back" midCtx true).should_advance
      = true ∧
    (match_transcript_to_slides semZero "go back" midCtx true).match_type
      = MatchType.voice_command ∧
    (match_transcript_to_slides semZero "go back" midCtx true).target_slide
      = 2 ∧
    (midCtx.get_lookahead_slides 3).map SlideContext.page_number = [4] ∧
    (2 : Int) ≠ 1 ∧ (2 : Int) ≠ (midCtx.slides.length : Int) := by
  decide

/-- C2 (amended): whenever the matcher returns `shouldAdvance = true`,
a verdict from the keyword, transition-phrase or semantic layer targets
the page number of one of the (up to 3) lookahead slides strictly after
the current slide; a voice-command verdict targets the successor of the
current page (`next`), its predecessor (`previous`), page 1 (`first`),
or the slide count (`last`) — the predecessor/successor need not lie in
the lookahead window nor be the first or last page. -/
theorem C2_target_bounds (sem : String → List ℚ → ℚ) (t : String)
    (ctx : PresentationContext) (u : Bool)
    (h : (match_transcript_to_slides sem t ctx u).should_advance = true) :
    ((match_transcript_to_slides sem t ctx u).match_type ≠
        MatchType.voice_command →
      (match_transcript_to_slides sem t ctx u).target_slide ∈
        (ctx.get_lookahead_slides 3).map SlideContext.page_number) ∧
    ((match_transcript_to_slides sem t ctx u).match_type =
        MatchType.voice_command →
      (match_transcript_to_slides sem t ctx u).target_slide =
          (match_transcript_to_slides sem t ctx u).current_slide + 1 ∨
      (match_transcript_to_slides sem t ctx u).target_slide =
          (match_transcript_to_slides sem t ctx u).current_slide - 1 ∨
      (match_transcript_to_slides sem t ctx u).target_slide = 1 ∨
      (match_transcript_to_slides sem t ctx u).target_slide =
          (ctx.slides.length : Int)) := by
  unfold match_transcript_to_slides at h ⊢
  cases hdv : detect_voice_command t with
  | none =>
      simp only [hdv] at h ⊢
      have hc := content_layers_advance sem t ctx u _ h
      exact ⟨fun _ => hc.1, fun hv => absurd hv hc.2⟩
  | some cmd =>
      simp only [hdv] at h ⊢
      cases hvl : voice_layer cmd ctx (currentPage ctx) with
      | some r =>
          simp only [hvl] at h ⊢
          obtain ⟨_, hmt, _, hcur, htgt⟩ := voice_layer_some hvl
          refine ⟨fun habs => absurd hmt habs, fun _ => ?_⟩
          rw [← hcur] at htgt
          exact htgt
      | none =>
          simp only [hvl] at h ⊢
          have hc := content_layers_advance sem t ctx u _ h
          exact ⟨fun _ => hc.1, fun hv => absurd hv hc.2⟩

/-- C2 witness: the amended bound instantiated on the concrete deck and
voice transcript of the counterexample — the voice verdict's target is
`current - 1`. -/
theorem C2_witness :
    (match_transcript_to_slides semZero "go back" midCtx true).target_slide =
        (match_transcript_to_slides semZero "go back" midCtx true).current_slide
          + 1 ∨
    (match_transcript_to_slides semZero "go back" midCtx true).target_slide =
        (match_transcript_to_slides semZero "go back" midCtx true).current_slide
          - 1 ∨
    (match_transcript_to_slides semZero "go back" midCtx true).target_slide
      = 1 ∨
    (match_transcript_to_slides semZero "go back" midCtx true).target_slide =
        (midCtx.slides.length : Int) :=
  (C2_target_bounds semZero "go back" midCtx true (by decide)).2 (by decide)

-- ── C7 ──

/-- C7: `advance_to(p)` returns `true` and sets the cursor on a slide
with page number `p` when one exists; returns `false` and leaves the
context untouched when none does; and for an existing page the call is
idempotent — repeating it returns `true` and leaves the whole context
(hence `current().pageNumber`) unchanged. -/
theorem C7_advance_to (ctx : PresentationContext) (p : Int) :
    ((∃ s ∈ ctx.slides, s.page_number = p) →
      (ctx.advance_to p).1 = true ∧
      (∃ s, ((ctx.advance_to p).2).current_slide = some s ∧
        s.page_number = p) ∧
      ((ctx.advance_to p).2).advance_to p = (true, (ctx.advance_to p).2)) ∧
    ((∀ s ∈ ctx.slides, s.page_number ≠ p) →
      ctx.advance_to p = (false, ctx)) := by
  constructor
  · rintro ⟨s0, hs0, hp0⟩
    obtain ⟨i, hfi⟩ : ∃ i,
        ctx.slides.findIdx? (fun s => s.page_number = p) = some i := by
      cases hfi : ctx.slides.findIdx? (fun s => s.page_number = p) with
      | some i => exact ⟨i, rfl⟩
      | none =>
          rw [List.findIdx?_eq_none_iff] at hfi
          have := hfi s0 hs0
          simp [hp0] at this
    obtain ⟨hlt, hpi, -⟩ := List.findIdx?_eq_some_iff_getElem.mp hfi
    refine ⟨?_, ⟨ctx.slides[i], ?_, by simpa using hpi⟩, ?_⟩
    · unfold PresentationContext.advance_to
      rw [hfi]
    · unfold PresentationContext.advance_to
      rw [hfi]
      unfold PresentationContext.current_slide
      have h0 : (0 : Int) ≤ (i : Int) := Int.ofNat_nonneg i
      rw [if_pos h0]
      simp [List.getElem?_eq_getElem hlt]
    · unfold PresentationContext.advance_to
      rw [hfi]
      dsimp only
      rw [hfi]
  · intro hall
    have hnone : ctx.slides.findIdx? (fun s => s.page_number = p) =
        Option.none := by
      rw [List.findIdx?_eq_none_iff]
      intro x hx
      simpa using hall x hx
    unfold PresentationContext.advance_to
    rw [hnone]

/-- C7 witness: on the concrete four-slide deck, `advance_to 2` succeeds
and repeating it is the identity on the resulting context. -/
theorem C7_witness :
    (midCtx.advance_to 2).1 = true ∧
    ((midCtx.advance_to 2).2).advance_to 2 = (true, (midCtx.advance_to 2).2) :=
  ⟨((C7_advance_to midCtx 2).1 ⟨bareSlide 2, by decide, rfl⟩).1,
   ((C7_advance_to midCtx 2).1 ⟨bareSlide 2, by decide, rfl⟩).2.2⟩

-- ── C6 ──

/-- C6 counterexample: when the inner transcription call fails (raises),
`transcribe_with_session` propagates the error before touching the
session — `chunkCounter` stays 0 instead of increasing to 1 as the claim
requires for failed transcriptions. -/
theorem C6_counterexample :
    (transcribe_with_session ({} : STTSessionState)
      (Except.error "whisper call failed")).1.chunk_counter = 0 ∧
    (0 : ℕ) ≠ 0 + 1 := by
  decide

/-- C6 (amended): `transcribe_with_session` increments `chunkCounter` by
exactly one whenever the transcription call returns a result — including
an empty one — but when the call fails with an error, the exception
propagates before the session update and the session state (counter
included) is unchanged. -/
theorem C6_chunk_counter (s : STTSessionState)
    (outcome : Except String TranscriptionResult) :
    (∀ r, outcome = Except.ok r →
      (transcribe_with_session s outcome).1.chunk_counter =
        s.chunk_counter + 1) ∧
    (∀ e, outcome = Except.error e →
      (transcribe_with_session s outcome).1 = s) := by
  constructor
  · rintro r rfl
    unfold transcribe_with_session STTSessionState.add_transcript
    dsimp only
    split_ifs <;> rfl
  · rintro e rfl
    rfl

/-- C6 witness: an empty successful result still increments the counter;
the applied instances are concrete. -/
theorem C6_witness :
    (transcribe_with_session ({} : STTSessionState)
        (Except.ok { text := "", language := "auto" })).1.chunk_counter =
      ({} : STTSessionState).chunk_counter + 1 ∧
    (transcribe_with_session ({} : STTSessionState)
        (Except.error "boom")).1 = ({} : STTSessionState) :=
  ⟨(C6_chunk_counter ({} : STTSessionState)
      (Except.ok { text := "", language := "auto" })).1 _ rfl,
   (C6_chunk_counter ({} : STTSessionState) (Except.error "boom")).2 _ rfl⟩

-- ── C10 ──

/-- A presentation context over an empty slide list. -/
def emptyDeck : PresentationContext := { presentation_id := 1 }

/-- C10: on a deck with no slides, a `first` voice command ("first
slide") yields `shouldAdvance = true`, `targetSlide = 1`, confidence 1,
and a `last` voice command ("last slide") yields `shouldAdvance = true`,
`targetSlide = 0` (`len(slides)`), both targeting pages that do not
exist. -/
theorem C10_empty_deck_voice (sem : String → List ℚ → ℚ) :
    match_transcript_to_slides sem "first slide" emptyDeck true =
      { should_advance := true
        match_type := MatchType.voice_command
        confidence := 1
        target_slide := 1
        current_slide := 1
        debug_info := "voice_command=first" } ∧
    match_transcript_to_slides sem "last slide" emptyDeck true =
      { should_advance := true
        match_type := MatchType.voice_command
        confidence := 1
        target_slide := 0
        current_slide := 1
        debug_info := "voice_command=last" } ∧
    emptyDeck.slides = [] := by
  refine ⟨?_, ?_, rfl⟩ <;> rfl

-- ── C9 ──

theorem foldl_add_sq_le (v : List ℚ) (acc : ℚ) :
    acc ≤ v.foldl (fun s a => s + a * a) acc := by
  induction v generalizing acc with
  | nil => exact le_refl acc
  | cons a t ih =>
      calc acc ≤ acc + a * a := le_add_of_nonneg_right (mul_self_nonneg a)
        _ ≤ t.foldl (fun s a => s + a * a) (acc + a * a) := ih _

theorem sumSq_nonneg (v : List ℚ) : 0 ≤ sumSq v := foldl_add_sq_le v 0

/-- C9: `cosine_similarity` is total — every input yields an `ok`
result, never the division-by-zero error — and it returns exactly 0 when
either vector is empty, the lengths differ, or either vector has zero
magnitude (zero sum of squares). -/
theorem C9_cosine_similarity (va vb : List ℚ) :
    (∃ r, cosine_similarity va vb = Except.ok r) ∧
    ((va = [] ∨ vb = [] ∨ va.length ≠ vb.length ∨
        sumSq va = 0 ∨ sumSq vb = 0) →
      cosine_similarity va vb = Except.ok 0) := by
  have hz : ∀ v : List ℚ, Real.sqrt ((sumSq v : ℚ) : ℝ) = 0 ↔ sumSq v = 0 := by
    intro v
    rw [Real.sqrt_eq_zero (by exact_mod_cast sumSq_nonneg v)]
    exact_mod_cast Iff.rfl
  by_cases h1 : va = [] ∨ vb = [] ∨ va.length ≠ vb.length
  · unfold cosine_similarity
    rw [if_pos h1]
    exact ⟨⟨0, rfl⟩, fun _ => rfl⟩
  · unfold cosine_similarity
    rw [if_neg h1]
    by_cases h2 : Real.sqrt ((sumSq va : ℚ) : ℝ) = 0 ∨
        Real.sqrt ((sumSq vb : ℚ) : ℝ) = 0
    · rw [if_pos h2]
      exact ⟨⟨0, rfl⟩, fun _ => rfl⟩
    · rw [if_neg h2]
      push_neg at h2
      have hmul : ¬ (Real.sqrt ((sumSq va : ℚ) : ℝ) *
          Real.sqrt ((sumSq vb : ℚ) : ℝ) = 0) := by
        rw [mul_eq_zero]
        push_neg
        exact h2
      rw [if_neg hmul]
      refine ⟨⟨_, rfl⟩, ?_⟩
      intro hcase
      rcases hcase with hc | hc | hc | hc | hc
      · exact absurd (Or.inl hc) h1
      · exact absurd (Or.inr (Or.inl hc)) h1
      · exact absurd (Or.inr (Or.inr hc)) h1
      · exact absurd ((hz va).mpr hc) h2.1
      · exact absurd ((hz vb).mpr hc) h2.2

/-- C9 witness: the guard case at a concrete degenerate input. -/
theorem C9_witness : cosine_similarity [] [1] = Except.ok 0 :=
  (C9_cosine_similarity [] [1]).2 (Or.inl rfl)

-- ── C4 ──

/-- Recognises the typed `error` events of the audio-frame branch. -/
def WsEvent.is_error : WsEvent → Bool
  | WsEvent.error _ => true
  | _ => false

/-- C4 counterexample: a frame whose matching step raises
`SlideMatchError` produces only the `processing` status, the transcript
event and the `listening` status — no typed error event is emitted,
contrary to the claim. -/
theorem C4_counterexample :
    process_audio_frame true 600
      { transcription := Except.ok { text := "hello", language := "en" }
        matching := Except.error (ProcError.slideMatch "match failed") } =
      ([WsEvent.status "processing", WsEvent.transcript "hello" 0 false,
        WsEvent.status "listening"], false) ∧
    ([WsEvent.status "processing", WsEvent.transcript "hello" 0 false,
      WsEvent.status "listening"].filter WsEvent.is_error) = [] := by
  decide

/-- C4 (amended): for an accepted audio frame (listening, ≥ 500 bytes)
the handler never closes the connection and always ends on a
`listening` status event — the client is never left in `processing`.
A failing transcription emits the typed error event followed by
`listening`; an unexpected error likewise; but a `SlideMatchError` from
the matching step emits no error event — only the `listening` status. -/
theorem C4_failed_frame_events (b : ℕ) (o : FrameOutcome) (hb : 500 ≤ b) :
    (process_audio_frame true b o).2 = false ∧
    (process_audio_frame true b o).1.getLast? =
      some (WsEvent.status "listening") ∧
    (∀ m, o.transcription = Except.error (ProcError.stt m) →
      (process_audio_frame true b o).1 =
        [WsEvent.status "processing",
         WsEvent.error ("Transcription failed: " ++ m),
         WsEvent.status "listening"]) ∧
    (∀ m, o.transcription = Except.error (ProcError.other m) →
      (process_audio_frame true b o).1 =
        [WsEvent.status "processing",
         WsEvent.error "Processing error occurred",
         WsEvent.status "listening"]) ∧
    (∀ r m, o.transcription = Except.ok r →
      o.matching = Except.error (ProcError.slideMatch m) →
      (process_audio_frame true b o).1.filter WsEvent.is_error = []) := by
  have hnb : ¬ b < 500 := by omega
  unfold process_audio_frame
  rw [if_neg (by simp), if_neg hnb]
  cases ht : o.transcription with
  | error e =>
      cases e with
      | stt m =>
          refine ⟨rfl, rfl, ?_, ?_, ?_⟩
          · rintro m' hm'
            cases hm'
            rfl
          · rintro m' hm'
            cases hm'
          · rintro r m' hr
            cases hr
      | slideMatch m =>
          refine ⟨rfl, rfl, ?_, ?_, ?_⟩
          · rintro m' hm'
            cases hm'
          · rintro m' hm'
            cases hm'
          · rintro r m' hr
            cases hr
      | other m =>
          refine ⟨rfl, rfl, ?_, ?_, ?_⟩
          · rintro m' hm'
            cases hm'
          · rintro m' hm'
            cases hm'
            rfl
          · rintro r m' hr
            cases hr
  | ok r =>
      refine ⟨rfl, ?_, ?_, ?_, ?_⟩
      · cases he : r.is_empty with
        | true => simp [he]
        | false =>
            simp only [he, Bool.not_false, if_true]
            cases hm : o.matching with
            | error e =>
                cases e <;> simp
            | ok v =>
                cases hadv : v.should_advance <;> simp [hadv]
      · rintro m' hm'
        cases hm'
      · rintro m' hm'
        cases hm'
      · rintro r' m' hr hm
        cases hr
        cases he : r.is_empty with
        | true => simp [he, WsEvent.is_error]
        | false =>
            simp only [he, Bool.not_false, if_true, hm]
            simp [WsEvent.is_error]

/-- C4 witness: the stt-error case on a concrete frame emits the typed
error event then `listening`, without closing. -/
theorem C4_witness :
    (process_audio_frame true 600
      { transcription := Except.error (ProcError.stt "bad audio")
        matching := Except.error (ProcError.stt "bad audio") }).1 =
      [WsEvent.status "processing",
       WsEvent.error ("Transcription failed: " ++ "bad audio"),
       WsEvent.status "listening"] ∧
    (process_audio_frame true 600
      { transcription := Except.error (ProcError.stt "bad audio")
        matching := Except.error (ProcError.stt "bad audio") }).2 = false :=
  ⟨(C4_failed_frame_events 600 _ (by decide)).2.2.1 "bad audio" rfl,
   (C4_failed_frame_events 600 _ (by decide)).1⟩

-- ── C3 ──

/-- The claim's keyword-layer qualification for a lookahead slide: at
least 3 (`KEYWORD_MATCH_THRESHOLD`) of its keywords occur as substrings
of the lowercased transcript, and the ratio matched/total is at least
0.25 (`KEYWORD_CONFIDENCE_THRESHOLD`); `mkRat m k = m / k` by
`mkRat_cast_div`. -/
def keywordQualifies (t : String) (s : SlideContext) : Prop :=
  KEYWORD_MATCH_THRESHOLD ≤
    (s.keywords.filter (fun kw => substr kw (pyLower t))).length ∧
  KEYWORD_CONFIDENCE_THRESHOLD ≤
    mkRat (s.keywords.filter (fun kw => substr kw (pyLower t))).length
      s.keywords.length

instance (t : String) (s : SlideContext) :
    Decidable (keywordQualifies t s) := by
  unfold keywordQualifies
  infer_instance

theorem match_keywords_eval (t : String) (kws : List String) (ht : t ≠ "")
    (hm : KEYWORD_MATCH_THRESHOLD ≤
      (kws.filter (fun kw => substr kw (pyLower t))).length) :
    match_keywords t kws KEYWORD_MATCH_THRESHOLD =
      (mkRat (kws.filter (fun kw => substr kw (pyLower t))).length kws.length,
       kws.filter (fun kw => substr kw (pyLower t))) := by
  rw [KEYWORD_MATCH_THRESHOLD] at hm
  have hkne : kws ≠ [] := by
    intro h
    subst h
    simp at hm
  have hkpos : 0 < kws.length := List.length_pos.mpr hkne
  unfold match_keywords
  rw [if_neg (by simp [ht, hkne])]
  dsimp only
  rw [if_neg (by rw [KEYWORD_MATCH_THRESHOLD]; omega)]
  have hfle : (kws.filter (fun kw => substr kw (pyLower t))).length ≤
      kws.length := List.length_filter_le _ _
  have hk1 : max kws.length 1 = kws.length := Nat.max_eq_left hkpos
  rw [hk1]
  have hle : mkRat (kws.filter (fun kw => substr kw (pyLower t))).length
      kws.length ≤ 1 := by
    rw [mkRat_cast_div]
    rw [div_le_one (by exact_mod_cast hkpos)]
    exact_mod_cast hfle
  rw [min_eq_left hle]

theorem match_keywords_threshold_iff (t : String) (kws : List String)
    (ht : t ≠ "") :
    KEYWORD_CONFIDENCE_THRESHOLD ≤
        (match_keywords t kws KEYWORD_MATCH_THRESHOLD).1 ↔
      (KEYWORD_MATCH_THRESHOLD ≤
          (kws.filter (fun kw => substr kw (pyLower t))).length ∧
        KEYWORD_CONFIDENCE_THRESHOLD ≤
          mkRat (kws.filter (fun kw => substr kw (pyLower t))).length
            kws.length) := by
  by_cases hm : KEYWORD_MATCH_THRESHOLD ≤
      (kws.filter (fun kw => substr kw (pyLower t))).length
  · rw [match_keywords_eval t kws ht hm]
    simp [hm]
  · have h0 : (match_keywords t kws KEYWORD_MATCH_THRESHOLD).1 = 0 := by
      unfold match_keywords
      by_cases hkne : kws = []
      · rw [if_pos (Or.inr hkne)]
      · rw [if_neg (by simp [ht, hkne])]
        dsimp only
        rw [KEYWORD_MATCH_THRESHOLD] at hm ⊢
        rw [if_pos (by omega)]
    rw [h0]
    constructor
    · intro habs
      exact absurd habs (by decide)
    · rintro ⟨hm', -⟩
      exact absurd hm' hm

theorem scanKeywordLayer_none_iff (t : String) (l : List SlideContext)
    (ht : t ≠ "") :
    scanKeywordLayer t l = Option.none ↔
      ∀ s ∈ l, ¬ keywordQualifies t s := by
  induction l with
  | nil => simp [scanKeywordLayer]
  | cons a rest ih =>
      rw [scanKeywordLayer]
      by_cases hq : keywordQualifies t a
      · rw [if_pos ((match_keywords_threshold_iff t a.keywords ht).mpr hq)]
        simp only [reduceCtorEq, false_iff]
        intro hall
        exact hall a (List.mem_cons_self _ _) hq
      · rw [if_neg (fun hc =>
          hq ((match_keywords_threshold_iff t a.keywords ht).mp hc))]
        rw [ih]
        constructor
        · intro hall s hs
          rcases List.mem_cons.mp hs with rfl | hs'
          · exact hq
          · exact hall s hs'
        · intro hall s hs
          exact hall s (List.mem_cons_of_mem _ hs)

theorem scanKeywordLayer_first (t : String) (l₁ : List SlideContext)
    (s : SlideContext) (l₂ : List SlideContext) (ht : t ≠ "")
    (hnone : ∀ s' ∈ l₁, ¬ keywordQualifies t s')
    (hq : keywordQualifies t s) :
    scanKeywordLayer t (l₁ ++ s :: l₂) =
      some (s,
        mkRat (s.keywords.filter (fun kw => substr kw (pyLower t))).length
          s.keywords.length,
        s.keywords.filter (fun kw => substr kw (pyLower t))) := by
  induction l₁ with
  | nil =>
      rw [List.nil_append, scanKeywordLayer]
      rw [if_pos ((match_keywords_threshold_iff t s.keywords ht).mpr hq)]
      rw [match_keywords_eval t s.keywords ht hq.1]
  | cons a rest ih =>
      rw [List.cons_append, scanKeywordLayer]
      rw [if_neg (fun hc =>
        hnone a (List.mem_cons_self _ _)
          ((match_keywords_threshold_iff t a.keywords ht).mp hc))]
      exact ih (fun s' hs' => hnone s' (List.mem_cons_of_mem _ hs'))

/-- C3: with no voice command present and a non-empty transcript (the
orchestrator only invokes the matcher on non-empty transcripts), a
keyword-layer verdict is produced iff some lookahead slide qualifies —
at least 3 keywords matched and ratio ≥ 0.25 — so a qualifying keyword
verdict always pre-empts any transition-phrase verdict; the first
qualifying lookahead slide (in order) is returned with confidence equal
to the ratio matched/total (`mkRat m k = m / k`), which never exceeds 1,
so the cap at 1.0 is inert. -/
theorem C3_keyword_layer (sem : String → List ℚ → ℚ) (t : String)
    (ctx : PresentationContext) (u : Bool)
    (hnv : detect_voice_command t = Option.none) (ht : t ≠ "") :
    ((match_transcript_to_slides sem t ctx u).match_type = MatchType.keyword ↔
      ∃ s ∈ ctx.get_lookahead_slides 3, keywordQualifies t s) ∧
    (∀ l₁ s l₂, ctx.get_lookahead_slides 3 = l₁ ++ s :: l₂ →
      (∀ s' ∈ l₁, ¬ keywordQualifies t s') → keywordQualifies t s →
      match_transcript_to_slides sem t ctx u =
        { should_advance := true
          match_type := MatchType.keyword
          confidence := mkRat (s.keywords.filter
              (fun kw => substr kw (pyLower t))).length s.keywords.length
          target_slide := s.page_number
          current_slide := currentPage ctx
          matched_keywords := s.keywords.filter
            (fun kw => substr kw (pyLower t)) }) ∧
    (∀ s : SlideContext, keywordQualifies t s →
      mkRat (s.keywords.filter (fun kw => substr kw (pyLower t))).length
        s.keywords.length ≤ 1) := by
  have hmts : match_transcript_to_slides sem t ctx u =
      content_layers sem t ctx u (currentPage ctx) := by
    simp only [match_transcript_to_slides, hnv]
  refine ⟨?_, ?_, ?_⟩
  · rw [hmts]
    unfold content_layers
    by_cases hla : ctx.get_lookahead_slides 3 = []
    · rw [if_pos hla]
      simp [noMatchResult, hla]
    · rw [if_neg hla]
      cases hsk : scanKeywordLayer t (ctx.get_lookahead_slides 3) with
      | some v =>
          obtain ⟨s, c, m⟩ := v
          simp only [hsk]
          have hex : ¬ ∀ s' ∈ ctx.get_lookahead_slides 3,
              ¬ keywordQualifies t s' := by
            intro hall
            rw [← scanKeywordLayer_none_iff t _ ht] at hall
            rw [hall] at hsk
            cases hsk
          push_neg at hex
          simp only [true_iff]
          exact hex
      | none =>
          simp only [hsk]
          have hall := (scanKeywordLayer_none_iff t _ ht).mp hsk
          constructor
          · intro hmt
            exfalso
            cases hsp : scanPhraseLayer t (ctx.get_lookahead_slides 3) with
            | some v =>
                obtain ⟨s, c, p⟩ := v
                simp [hsp] at hmt
            | none =>
                simp only [hsp] at hmt
                cases u with
                | false => simp [noMatchResult] at hmt
                | true =>
                    simp only [if_true] at hmt
                    cases hbs : ((ctx.get_lookahead_slides 3).foldl
                        (semStep sem t)
                        ((0 : ℚ), (Option.none : Option SlideContext))).2 with
                    | some s =>
                        simp only [hbs] at hmt
                        by_cases hge : ((ctx.get_lookahead_slides 3).foldl
                            (semStep sem t)
                            ((0 : ℚ), (Option.none : Option SlideContext))).1 ≥
                            SEMANTIC_CONFIDENCE_THRESHOLD
                        · rw [if_pos hge] at hmt
                          simp at hmt
                        · rw [if_neg hge] at hmt
                          simp [noMatchResult] at hmt
                    | none =>
                        simp only [hbs] at hmt
                        simp [noMatchResult] at hmt
          · rintro ⟨s, hs, hq⟩
            exact absurd hq (hall s hs)
  · intro l₁ s l₂ hdecomp hnone hq
    rw [hmts]
    unfold content_layers
    rw [hdecomp]
    rw [if_neg (by simp)]
    rw [scanKeywordLayer_first t l₁ s l₂ ht hnone hq]
  · intro s hq
    have hfle := List.length_filter_le (fun kw => substr kw (pyLower t))
      s.keywords
    have hkpos : 0 < s.keywords.length := by
      have h1 := hq.1
      rw [KEYWORD_MATCH_THRESHOLD] at h1
      omega
    rw [mkRat_cast_div, div_le_one (by exact_mod_cast hkpos)]
    exact_mod_cast hfle

/-- A deck whose second slide carries keywords, cursor on slide 1. -/
def kwDeck : PresentationContext :=
  { presentation_id := 1
    slides := [bareSlide 1,
      { page_number := 2
        content_text := ""
        keywords := ["alpha", "beta", "gamma", "delta"] }]
    current_slide_index := 0 }

/-- C3 witness: on the concrete deck, the transcript "alpha beta gamma
talk" (no voice command, non-empty) qualifies the lookahead slide and
the matcher attributes the keyword layer. -/
theorem C3_witness :
    (match_transcript_to_slides semZero "alpha beta gamma talk" kwDeck
      true).match_type = MatchType.keyword :=
  (C3_keyword_layer semZero "alpha beta gamma talk" kwDeck true
    (by decide) (by decide)).1.mpr
    ⟨{ page_number := 2
       content_text := ""
       keywords := ["alpha", "beta", "gamma", "delta"] },
     by decide, by decide⟩

-- ── C5 ──

theorem find?_first {α : Type} (pred : α → Bool) (l₁ : List α) (p : α)
    (l₂ : List α) (h1 : ∀ q ∈ l₁, pred q = false) (hp : pred p = true) :
    (l₁ ++ p :: l₂).find? pred = some p := by
  induction l₁ with
  | nil => simpa using List.find?_cons_of_pos l₂ hp
  | cons a rest ih =>
      rw [List.cons_append,
        List.find?_cons_of_neg _ (by simp [h1 a (List.mem_cons_self _ _)])]
      exact ih (fun q hq => h1 q (List.mem_cons_of_mem _ hq))

theorem foldl_phrase_inv (t : String) (ps : List String) (acc : ℚ × String) :
    ps.foldl
        (fun acc p =>
          if (phrase_words p).length < 2 then acc
          else
            if phrase_word_ratio t p > mkRat 3 5 ∧
                phrase_word_ratio t p > acc.1 then
              (qmul (phrase_word_ratio t p) (mkRat 7 10), p)
            else acc)
        acc = acc ∨
      ∃ p ∈ ps, 2 ≤ (phrase_words p).length ∧
        mkRat 3 5 < phrase_word_ratio t p ∧
        ps.foldl
          (fun acc p =>
            if (phrase_words p).length < 2 then acc
            else
              if phrase_word_ratio t p > mkRat 3 5 ∧
                  phrase_word_ratio t p > acc.1 then
                (qmul (phrase_word_ratio t p) (mkRat 7 10), p)
              else acc)
          acc = (qmul (phrase_word_ratio t p) (mkRat 7 10), p) := by
  induction ps generalizing acc with
  | nil => exact Or.inl rfl
  | cons a rest ih =>
      rw [List.foldl_cons]
      by_cases h2 : (phrase_words a).length < 2
      · rw [if_pos h2]
        rcases ih acc with h | ⟨p, hp, hc1, hc2, hval⟩
        · exact Or.inl h
        · exact Or.inr ⟨p, List.mem_cons_of_mem _ hp, hc1, hc2, hval⟩
      · rw [if_neg h2]
        by_cases h3 : phrase_word_ratio t a > mkRat 3 5 ∧
            phrase_word_ratio t a > acc.1
        · rw [if_pos h3]
          rcases ih (qmul (phrase_word_ratio t a) (mkRat 7 10), a) with
            h | ⟨p, hp, hc1, hc2, hval⟩
          · exact Or.inr ⟨a, List.mem_cons_self _ _, by omega, h3.1, h⟩
          · exact Or.inr ⟨p, List.mem_cons_of_mem _ hp, hc1, hc2, hval⟩
        · rw [if_neg h3]
          rcases ih acc with h | ⟨p, hp, hc1, hc2, hval⟩
          · exact Or.inl h
          · exact Or.inr ⟨p, List.mem_cons_of_mem _ hp, hc1, hc2, hval⟩

theorem scanPhraseLayer_some_decomp {t : String} {l : List SlideContext}
    {s : SlideContext} {c : ℚ} {p : String}
    (h : scanPhraseLayer t l = some (s, c, p)) :
    ∃ l₁ l₂, l = l₁ ++ s :: l₂ ∧
      (∀ s' ∈ l₁, (match_transition_phrases t s'.transition_phrases).1 <
        TRANSITION_CONFIDENCE_THRESHOLD) ∧
      TRANSITION_CONFIDENCE_THRESHOLD ≤
        (match_transition_phrases t s.transition_phrases).1 ∧
      c = (match_transition_phrases t s.transition_phrases).1 ∧
      p = (match_transition_phrases t s.transition_phrases).2 := by
  induction l with
  | nil => simp [scanPhraseLayer] at h
  | cons a rest ih =>
      rw [scanPhraseLayer] at h
      by_cases hc : (match_transition_phrases t a.transition_phrases).1 ≥
          TRANSITION_CONFIDENCE_THRESHOLD
      · rw [if_pos hc] at h
        obtain ⟨rfl, rfl, rfl⟩ :
            a = s ∧ (match_transition_phrases t a.transition_phrases).1 = c ∧
              (match_transition_phrases t a.transition_phrases).2 = p := by
          cases h
          exact ⟨rfl, rfl, rfl⟩
        exact ⟨[], rest, rfl, by simp, hc, rfl, rfl⟩
      · rw [if_neg hc] at h
        obtain ⟨l₁, l₂, hdecomp, hfail, hthr, hcv, hpv⟩ := ih h
        refine ⟨a :: l₁, l₂, by rw [hdecomp, List.cons_append], ?_, hthr,
          hcv, hpv⟩
        intro s' hs'
        rcases List.mem_cons.mp hs' with rfl | hs''
        · exact lt_of_not_ge hc
        · exact hfail s' hs''

theorem content_layers_transition
    {sem : String → List ℚ → ℚ} {t : String} {ctx : PresentationContext}
    {u : Bool} {cp : Int}
    (h : (content_layers sem t ctx u cp).match_type =
      MatchType.transition_phrase) :
    ∃ l₁ s l₂, ctx.get_lookahead_slides 3 = l₁ ++ s :: l₂ ∧
      (∀ s' ∈ l₁, (match_transition_phrases t s'.transition_phrases).1 <
        TRANSITION_CONFIDENCE_THRESHOLD) ∧
      TRANSITION_CONFIDENCE_THRESHOLD ≤
        (match_transition_phrases t s.transition_phrases).1 ∧
      content_layers sem t ctx u cp =
        { should_advance := true
          match_type := MatchType.transition_phrase
          confidence := (match_transition_phrases t s.transition_phrases).1
          target_slide := s.page_number
          current_slide := cp
          debug_info := (match_transition_phrases t s.transition_phrases).2 } := by
  unfold content_layers at h ⊢
  by_cases hla : ctx.get_lookahead_slides 3 = []
  · rw [if_pos hla] at h
    simp [noMatchResult] at h
  · rw [if_neg hla] at h ⊢
    cases hsk : scanKeywordLayer t (ctx.get_lookahead_slides 3) with
    | some v =>
        obtain ⟨s, c, m⟩ := v
        simp [hsk] at h
    | none =>
        simp only [hsk] at h ⊢
        cases hsp : scanPhraseLayer t (ctx.get_lookahead_slides 3) with
        | some v =>
            obtain ⟨s, c, p⟩ := v
            simp only [hsp] at h ⊢
            obtain ⟨l₁, l₂, hdecomp, hfail, hthr, hcv, hpv⟩ :=
              scanPhraseLayer_some_decomp hsp
            exact ⟨l₁, s, l₂, hdecomp, hfail, hthr, by rw [hcv, hpv]⟩
        | none =>
            simp only [hsp] at h
            cases u with
            | false => simp [noMatchResult] at h
            | true =>
                simp only [if_true] at h
                cases hbs : ((ctx.get_lookahead_slides 3).foldl
                    (semStep sem t)
                    ((0 : ℚ), (Option.none : Option SlideContext))).2 with
                | some s =>
                    simp only [hbs] at h
                    by_cases hge : ((ctx.get_lookahead_slides 3).foldl
                        (semStep sem t)
                        ((0 : ℚ), (Option.none : Option SlideContext))).1 ≥
                        SEMANTIC_CONFIDENCE_THRESHOLD
                    · rw [if_pos hge] at h
                      simp at h
                    · rw [if_neg hge] at h
                      simp [noMatchResult] at h
                | none =>
                    simp only [hbs] at h
                    simp [noMatchResult] at h

/-- C5 counterexample: with transcript "beta alpha cc dd ee ff" and
phrases `["alpha beta", "cc dd ee ff gg"]`, no phrase is fully
contained; "alpha beta" has both (2/2, ratio 1) of its distinct words
present — the best phrase, whose claimed confidence is 1 × 0.7 = 0.7 —
yet the function returns 0.8 × 0.7 = 14/25 for the later, worse phrase,
because the loop compares each raw ratio (0.8) against the already
scaled best (0.7). -/
theorem C5_counterexample :
    match_transition_phrases "beta alpha cc dd ee ff"
        ["alpha beta", "cc dd ee ff gg"] =
      (mkRat 14 25, "cc dd ee ff gg") ∧
    substr (pyLower "alpha beta") (pyLower "beta alpha cc dd ee ff") =
      false ∧
    substr (pyLower "cc dd ee ff gg") (pyLower "beta alpha cc dd ee ff") =
      false ∧
    phrase_word_ratio "beta alpha cc dd ee ff" "alpha beta" = 1 ∧
    (phrase_words "alpha beta").length = 2 ∧
    mkRat 14 25 ≠ qmul 1 (mkRat 7 10) := by
  decide

/-- C5 (amended): full containment of some transition phrase yields
confidence 0.85 for the first such phrase; otherwise the scan yields
either `(0, "")` or confidence `wordRatio × 0.7` for SOME phrase whose
distinct-word ratio strictly exceeds 0.6 (exactly 60% does not qualify,
and the returned phrase need not be the best one, since each raw ratio
is compared against the already-scaled running best); and a
transition-phrase verdict of the matcher always belongs to the first
lookahead slide whose phrase confidence reaches 0.5, with that
confidence. -/
theorem C5_transition_phrases :
    (∀ (t : String) (l₁ : List String) (p : String) (l₂ : List String),
      t ≠ "" →
      (∀ q ∈ l₁, substr (pyLower q) (pyLower t) = false) →
      substr (pyLower p) (pyLower t) = true →
      match_transition_phrases t (l₁ ++ p :: l₂) = (mkRat 17 20, p)) ∧
    (∀ (t : String) (ps : List String),
      (∀ p ∈ ps, substr (pyLower p) (pyLower t) = false) →
      (match_transition_phrases t ps = (0, "") ∨
        ∃ p ∈ ps, 2 ≤ (phrase_words p).length ∧
          mkRat 3 5 < phrase_word_ratio t p ∧
          match_transition_phrases t ps =
            (qmul (phrase_word_ratio t p) (mkRat 7 10), p))) ∧
    (∀ (sem : String → List ℚ → ℚ) (t : String) (ctx : PresentationContext)
        (u : Bool),
      (match_transcript_to_slides sem t ctx u).match_type =
        MatchType.transition_phrase →
      ∃ l₁ s l₂, ctx.get_lookahead_slides 3 = l₁ ++ s :: l₂ ∧
        (∀ s' ∈ l₁, (match_transition_phrases t s'.transition_phrases).1 <
          TRANSITION_CONFIDENCE_THRESHOLD) ∧
        TRANSITION_CONFIDENCE_THRESHOLD ≤
          (match_transition_phrases t s.transition_phrases).1 ∧
        match_transcript_to_slides sem t ctx u =
          { should_advance := true
            match_type := MatchType.transition_phrase
            confidence := (match_transition_phrases t s.transition_phrases).1
            target_slide := s.page_number
            current_slide := currentPage ctx
            debug_info :=
              (match_transition_phrases t s.transition_phrases).2 }) := by
  refine ⟨?_, ?_, ?_⟩
  · intro t l₁ p l₂ ht h1 hp
    unfold match_transition_phrases
    rw [if_neg (by simp [ht])]
    dsimp only
    rw [find?_first (fun q => substr (pyLower q) (pyLower t)) l₁ p l₂ h1 hp]
  · intro t ps hnone
    by_cases htriv : t = "" ∨ ps = []
    · left
      unfold match_transition_phrases
      rw [if_pos htriv]
    · unfold match_transition_phrases
      rw [if_neg htriv]
      dsimp only
      have hfind : ps.find? (fun p => substr (pyLower p) (pyLower t)) =
          Option.none := by
        rw [List.find?_eq_none]
        intro x hx
        simp [hnone x hx]
      rw [hfind]
      exact foldl_phrase_inv t ps (0, "")
  · intro sem t ctx u h
    cases hdv : detect_voice_command t with
    | none =>
        simp only [match_transcript_to_slides, hdv] at h
        obtain ⟨l₁, s, l₂, hdecomp, hfail, hthr, hval⟩ :=
          content_layers_transition h
        refine ⟨l₁, s, l₂, hdecomp, hfail, hthr, ?_⟩
        simp only [match_transcript_to_slides, hdv]
        exact hval
    | some cmd =>
        cases hvl : voice_layer cmd ctx (currentPage ctx) with
        | some r =>
            simp only [match_transcript_to_slides, hdv, hvl] at h
            have hv := (voice_layer_some hvl).2.1
            rw [hv] at h
            exact absurd h (by decide)
        | none =>
            simp only [match_transcript_to_slides, hdv, hvl] at h
            obtain ⟨l₁, s, l₂, hdecomp, hfail, hthr, hval⟩ :=
              content_layers_transition h
            refine ⟨l₁, s, l₂, hdecomp, hfail, hthr, ?_⟩
            simp only [match_transcript_to_slides, hdv, hvl]
            exact hval

/-- C5 witness: a fully contained phrase on concrete inputs gets
confidence 0.85. -/
theorem C5_witness :
    match_transition_phrases "we talk now about alpha" ["now about alpha"] =
      (mkRat 17 20, "now about alpha") :=
  C5_transition_phrases.1 "we talk now about alpha" [] "now about alpha" []
    (by decide) (by simp) (by decide)

-- ── C8 ──

theorem entBefore_total (a b : ℕ × String × ℕ) :
    entBefore a b = true ∨ entBefore b a = true := by
  unfold entBefore
  simp only [Bool.or_eq_true, Bool.and_eq_true, beq_iff_eq, decide_eq_true_eq]
  omega

theorem entBefore_trans {a b c : ℕ × String × ℕ}
    (h1 : entBefore a b = true) (h2 : entBefore b c = true) :
    entBefore a c = true := by
  unfold entBefore at h1 h2 ⊢
  simp only [Bool.or_eq_true, Bool.and_eq_true, beq_iff_eq,
    decide_eq_true_eq] at h1 h2 ⊢
  omega

theorem insertRanked_perm (x : ℕ × String × ℕ) (l : List (ℕ × String × ℕ)) :
    (insertRanked x l).Perm (x :: l) := by
  induction l with
  | nil => exact List.Perm.refl _
  | cons y ys ih =>
      rw [insertRanked]
      by_cases hxy : entBefore x y = true
      · rw [if_pos hxy]
      · rw [if_neg hxy]
        exact (ih.cons y).trans (List.Perm.swap x y ys)

theorem rankDesc_perm (l : List (ℕ × String × ℕ)) : (rankDesc l).Perm l := by
  induction l with
  | nil => exact List.Perm.refl _
  | cons x xs ih =>
      rw [rankDesc, List.foldr_cons]
      exact (insertRanked_perm x _).trans (ih.cons x)

theorem insertRanked_pairwise (x : ℕ × String × ℕ)
    (l : List (ℕ × String × ℕ))
    (h : l.Pairwise (fun a b => entBefore a b = true)) :
    (insertRanked x l).Pairwise (fun a b => entBefore a b = true) := by
  induction l with
  | nil => simp [insertRanked]
  | cons y ys ih =>
      obtain ⟨hy, hys⟩ := List.pairwise_cons.mp h
      rw [insertRanked]
      by_cases hxy : entBefore x y = true
      · rw [if_pos hxy]
        refine List.pairwise_cons.mpr ⟨?_, h⟩
        intro z hz
        rcases List.mem_cons.mp hz with rfl | hz'
        · exact hxy
        · exact entBefore_trans hxy (hy z hz')
      · rw [if_neg hxy]
        have hyx : entBefore y x = true :=
          (entBefore_total x y).resolve_left hxy
        refine List.pairwise_cons.mpr ⟨?_, ih hys⟩
        intro z hz
        rcases List.mem_cons.mp ((insertRanked_perm x ys).mem_iff.mp hz) with
          rfl | hz'
        · exact hyx
        · exact hy z hz'

theorem rankDesc_pairwise (l : List (ℕ × String × ℕ)) :
    (rankDesc l).Pairwise (fun a b => entBefore a b = true) := by
  induction l with
  | nil => simp [rankDesc]
  | cons x xs ih =>
      rw [rankDesc, List.foldr_cons]
      exact insertRanked_pairwise x _ ih

theorem bumpFreq_keys (l : List (String × ℕ)) (w : String) :
    (w ∈ l.map Prod.fst ∧
      (bumpFreq l w).map Prod.fst = l.map Prod.fst) ∨
    (w ∉ l.map Prod.fst ∧
      (bumpFreq l w).map Prod.fst = l.map Prod.fst ++ [w]) := by
  induction l with
  | nil => exact Or.inr ⟨by simp, rfl⟩
  | cons a rest ih =>
      obtain ⟨x, n⟩ := a
      rw [bumpFreq]
      by_cases hx : x = w
      · rw [if_pos hx]
        exact Or.inl ⟨by simp [hx], by simp⟩
      · rw [if_neg hx]
        rcases ih with ⟨hmem, hkeys⟩ | ⟨hmem, hkeys⟩
        · exact Or.inl ⟨by simp [hmem], by simp [hkeys]⟩
        · refine Or.inr ⟨?_, by simp [hkeys]⟩
          simp only [List.map_cons, List.mem_cons]
          rintro (h | h)
          · exact hx h.symm
          · exact hmem h

theorem bumpFreq_mem {l : List (String × ℕ)} {w : String} {e : String × ℕ}
    (h : e ∈ bumpFreq l w) : e.1 = w ∨ e ∈ l := by
  induction l with
  | nil =>
      rw [bumpFreq] at h
      rcases List.mem_singleton.mp h with rfl
      exact Or.inl rfl
  | cons a rest ih =>
      obtain ⟨x, n⟩ := a
      rw [bumpFreq] at h
      by_cases hx : x = w
      · rw [if_pos hx] at h
        rcases List.mem_cons.mp h with rfl | h'
        · exact Or.inl hx
        · exact Or.inr (List.mem_cons_of_mem _ h')
      · rw [if_neg hx] at h
        rcases List.mem_cons.mp h with rfl | h'
        · exact Or.inr (List.mem_cons_self _ _)
        · rcases ih h' with h'' | h''
          · exact Or.inl h''
          · exact Or.inr (List.mem_cons_of_mem _ h'')

theorem wordFreqList_keys_nodup (text : String) :
    ((wordFreqList text).map Prod.fst).Nodup := by
  unfold wordFreqList
  generalize pySplitWs (cleanText (pyLower text)) = ws
  have inv : ∀ (ws : List String) (acc : List (String × ℕ)),
      (acc.map Prod.fst).Nodup →
      ((ws.foldl (fun acc w => if kwAllowed w then bumpFreq acc w else acc)
        acc).map Prod.fst).Nodup := by
    intro ws
    induction ws with
    | nil => intro acc h; exact h
    | cons w rest ih =>
        intro acc h
        rw [List.foldl_cons]
        by_cases hk : kwAllowed w
        · rw [if_pos hk]
          refine ih _ ?_
          rcases bumpFreq_keys acc w with ⟨-, hkeys⟩ | ⟨hmem, hkeys⟩
          · rw [hkeys]; exact h
          · rw [hkeys]
            simp [List.nodup_append, h, hmem]
        · rw [if_neg hk]
          exact ih _ h
  exact inv ws [] (by simp)

theorem wordFreqList_all_allowed (text : String) :
    ∀ e ∈ wordFreqList text, kwAllowed e.1 = true := by
  unfold wordFreqList
  generalize pySplitWs (cleanText (pyLower text)) = ws
  have inv : ∀ (ws : List String) (acc : List (String × ℕ)),
      (∀ e ∈ acc, kwAllowed e.1 = true) →
      ∀ e ∈ ws.foldl (fun acc w => if kwAllowed w then bumpFreq acc w else acc)
        acc, kwAllowed e.1 = true := by
    intro ws
    induction ws with
    | nil => intro acc h; exact h
    | cons w rest ih =>
        intro acc h
        rw [List.foldl_cons]
        by_cases hk : kwAllowed w
        · rw [if_pos hk]
          refine ih _ ?_
          intro e he
          rcases bumpFreq_mem he with he' | he'
          · rw [he']; exact hk
          · exact h e he'
        · rw [if_neg hk]
          exact ih _ h
  exact inv ws [] (by simp)

theorem find?_key_of_mem {l : List (String × ℕ)} {e : String × ℕ}
    (hnd : (l.map Prod.fst).Nodup) (he : e ∈ l) :
    l.find? (fun x => x.1 = e.1) = some e := by
  induction l with
  | nil => cases he
  | cons a rest ih =>
      obtain ⟨hka, hnd'⟩ :
          a.1 ∉ rest.map Prod.fst ∧ (rest.map Prod.fst).Nodup := by
        rw [List.map_cons, List.nodup_cons] at hnd
        exact hnd
      by_cases ha : a.1 = e.1
      · have : a = e := by
          rcases List.mem_cons.mp he with rfl | he'
          · rfl
          · exact absurd (ha ▸ List.mem_map_of_mem Prod.fst he') hka
        rw [this]
        exact List.find?_cons_of_pos _ (by simp)
      · have he' : e ∈ rest := by
          rcases List.mem_cons.mp he with rfl | he'
          · exact absurd rfl ha
          · exact he'
        rw [List.find?_cons_of_neg _ (by simpa using ha)]
        exact ih hnd' he'

/-- The frequency the `word_freq` dict assigns to `w` (0 if absent). -/
def wordFreq (text : String) (w : String) : ℕ :=
  match (wordFreqList text).find? (fun e => e.1 = w) with
  | some e => e.2
  | Option.none => 0

/-- First-encounter rank of a surviving token: its index in the
insertion-ordered `word_freq` dict. -/
def encounterIdx (text : String) (w : String) : ℕ :=
  (wordFreqList text).findIdx (fun e => e.1 = w)

/-- The claim's score of a token: `frequency × log2(max(length, 2))`,
in exact real arithmetic. -/
noncomputable def kwScore (text : String) (w : String) : ℝ :=
  (wordFreq text w : ℝ) * Real.logb 2 ((max w.length 2 : ℕ) : ℝ)

theorem pow_le_iff_logb (L1 f1 L2 f2 : ℕ) (h1 : 2 ≤ L1) (h2 : 2 ≤ L2) :
    (L1 ^ f1 ≤ L2 ^ f2) ↔
      ((f1 : ℝ) * Real.logb 2 ((L1 : ℕ) : ℝ) ≤
        (f2 : ℝ) * Real.logb 2 ((L2 : ℕ) : ℝ)) := by
  have p1 : (0 : ℝ) < ((L1 : ℕ) : ℝ) ^ f1 := by positivity
  have p2 : (0 : ℝ) < ((L2 : ℕ) : ℝ) ^ f2 := by positivity
  rw [← Real.logb_pow, ← Real.logb_pow,
    Real.logb_le_logb (by norm_num : (1 : ℝ) < 2) p1 p2]
  constructor
  · intro h
    exact_mod_cast h
  · intro h
    exact_mod_cast h

theorem pyStrip_of_all_space {text : String}
    (h : ∀ c ∈ text.toList, pyIsSpace c = true) : pyStrip text = "" := by
  unfold pyStrip pyStripChars
  have hdw : text.toList.dropWhile (fun c => pySpaceChars.contains c) = [] :=
    List.dropWhile_eq_nil_iff.mpr (fun x hx => by
      have := h x hx
      simpa [pyIsSpace] using this)
  rw [hdw]
  rfl

theorem enum_entry_spec (text : String) (a : ℕ × String × ℕ)
    (ha : a ∈ (wordFreqList text).enum) :
    encounterIdx text a.2.1 = a.1 ∧ wordFreq text a.2.1 = a.2.2 := by
  have hlt : a.1 < (wordFreqList text).length := List.fst_lt_of_mem_enum ha
  have hget : (wordFreqList text)[a.1]? = some a.2 := by
    have := List.mem_enum_iff_getElem?.mp ha
    simpa using this
  have hgetE : (wordFreqList text)[a.1] = a.2 := by
    rw [List.getElem?_eq_getElem hlt] at hget
    exact Option.some.inj hget
  have hmem : a.2 ∈ wordFreqList text := by
    rw [← hgetE]
    exact List.getElem_mem _
  constructor
  · unfold encounterIdx
    rw [List.findIdx_eq hlt]
    refine ⟨by simp [hgetE], ?_⟩
    intro k hk
    simp only [decide_eq_false_iff_not]
    intro habs
    have hkeys := wordFreqList_keys_nodup text
    have hklt : k < (wordFreqList text).length := Nat.lt_trans hk hlt
    have hklt2 : k < ((wordFreqList text).map Prod.fst).length := by
      simpa using hklt
    have hlt2 : a.1 < ((wordFreqList text).map Prod.fst).length := by
      simpa using hlt
    have hmk : ((wordFreqList text).map Prod.fst)[k] =
        ((wordFreqList text).map Prod.fst)[a.1] := by
      simp only [List.getElem_map]
      rw [hgetE]
      exact habs
    have := (@List.Nodup.getElem_inj_iff _ _ hkeys k hklt2 a.1 hlt2).mp hmk
    omega
  · unfold wordFreq
    rw [find?_key_of_mem (wordFreqList_keys_nodup text) hmem]

/-- C8: `extract_keywords_from_text` returns at most `max_keywords`
tokens; empty or whitespace-only input returns `[]`; every returned
token survived the filter (length > 2, not a stop-word, not pure
numeric); and the output is ordered by descending score
`frequency × log2(max(length, 2))` over the input text, with ties broken
by first-encounter order. -/
theorem C8_extract_keywords (text : String) (maxK : ℕ) :
    (extract_keywords_from_text text maxK).length ≤ maxK ∧
    ((∀ c ∈ text.toList, pyIsSpace c = true) →
      extract_keywords_from_text text maxK = []) ∧
    (∀ w ∈ extract_keywords_from_text text maxK,
      2 < w.length ∧ w ∉ STOPWORDS ∧ pyIsDigitStr w = false) ∧
    (∀ i j (hj : j < (extract_keywords_from_text text maxK).length)
        (hij : i < j),
      kwScore text ((extract_keywords_from_text text maxK).get ⟨j, hj⟩) ≤
        kwScore text ((extract_keywords_from_text text maxK).get
          ⟨i, lt_trans hij hj⟩) ∧
      (kwScore text ((extract_keywords_from_text text maxK).get
            ⟨i, lt_trans hij hj⟩) =
          kwScore text ((extract_keywords_from_text text maxK).get ⟨j, hj⟩) →
        encounterIdx text ((extract_keywords_from_text text maxK).get
            ⟨i, lt_trans hij hj⟩) <
          encounterIdx text ((extract_keywords_from_text text maxK).get
            ⟨j, hj⟩))) := by
  have hcases : extract_keywords_from_text text maxK = [] ∨
      extract_keywords_from_text text maxK =
        ((rankDesc (wordFreqList text).enum).take maxK).map
          (fun e => e.2.1) := by
    unfold extract_keywords_from_text
    split_ifs with h1
    · exact Or.inl rfl
    · dsimp only
      split_ifs with h2
      · exact Or.inl rfl
      · exact Or.inr rfl
  refine ⟨?_, ?_, ?_, ?_⟩
  · rcases hcases with h | h
    · rw [h]
      exact Nat.zero_le _
    · rw [h, List.length_map]
      exact List.length_take_le _ _
  · intro hsp
    unfold extract_keywords_from_text
    rw [if_pos (pyStrip_of_all_space hsp)]
  · intro w hw
    rcases hcases with h | h
    · rw [h] at hw
      cases hw
    · rw [h] at hw
      obtain ⟨e, he, rfl⟩ := List.mem_map.mp hw
      have he1 : e ∈ rankDesc (wordFreqList text).enum :=
        (List.take_sublist _ _).subset he
      have he2 : e ∈ (wordFreqList text).enum :=
        (rankDesc_perm _).mem_iff.mp he1
      have hall := wordFreqList_all_allowed text e.2
        (List.snd_mem_of_mem_enum he2)
      unfold kwAllowed at hall
      rw [Bool.and_eq_true, Bool.and_eq_true] at hall
      obtain ⟨⟨h1, h2⟩, h3⟩ := hall
      refine ⟨by simpa using h1, ?_, by simpa using h3⟩
      intro hmem
      rw [Bool.not_eq_true'] at h2
      simp only [List.contains, List.elem_eq_mem, decide_eq_false_iff_not]
        at h2
      exact h2 hmem
  · intro i j hj hij
    rcases hcases with h | h
    · exfalso
      rw [h] at hj
      exact absurd hj (by simp)
    · have hj2 : j < (((rankDesc (wordFreqList text).enum).take maxK).map
          (fun e => e.2.1)).length := by
        rw [← h]
        exact hj
      have hj3 : j < ((rankDesc (wordFreqList text).enum).take maxK).length :=
        by simpa using hj2
      have hi3 : i < ((rankDesc (wordFreqList text).enum).take maxK).length :=
        Nat.lt_trans hij hj3
      have hgi : (extract_keywords_from_text text maxK).get
          ⟨i, lt_trans hij hj⟩ =
          (((rankDesc (wordFreqList text).enum).take maxK).get
            ⟨i, hi3⟩).2.1 := by
        simp only [h, List.get_eq_getElem, List.getElem_map]
      have hgj : (extract_keywords_from_text text maxK).get ⟨j, hj⟩ =
          (((rankDesc (wordFreqList text).enum).take maxK).get
            ⟨j, hj3⟩).2.1 := by
        simp only [h, List.get_eq_getElem, List.getElem_map]
      rw [hgi, hgj]
      have hAmem : ((rankDesc (wordFreqList text).enum).take maxK).get
          ⟨i, hi3⟩ ∈ (wordFreqList text).enum :=
        (rankDesc_perm _).mem_iff.mp
          ((List.take_sublist _ _).subset (List.get_mem _ _ _))
      have hBmem : ((rankDesc (wordFreqList text).enum).take maxK).get
          ⟨j, hj3⟩ ∈ (wordFreqList text).enum :=
        (rankDesc_perm _).mem_iff.mp
          ((List.take_sublist _ _).subset (List.get_mem _ _ _))
      have hspecA := enum_entry_spec text _ hAmem
      have hspecB := enum_entry_spec text _ hBmem
      have hpw : ((rankDesc (wordFreqList text).enum).take maxK).Pairwise
          (fun a b => entBefore a b = true) :=
        List.Pairwise.sublist (List.take_sublist _ _) (rankDesc_pairwise _)
      have hR : entBefore
          (((rankDesc (wordFreqList text).enum).take maxK).get ⟨i, hi3⟩)
          (((rankDesc (wordFreqList text).enum).take maxK).get ⟨j, hj3⟩) =
          true := by
        have := List.pairwise_iff_getElem.mp hpw i j hi3 hj3 hij
        simpa [List.get_eq_getElem] using this
      have hnd : ((rankDesc (wordFreqList text).enum).take maxK).Nodup := by
        have hmf : (((wordFreqList text).enum).map Prod.fst).Nodup := by
          rw [List.enum_map_fst]
          exact List.nodup_range _
        have henum : ((wordFreqList text).enum).Nodup :=
          List.Nodup.of_map _ hmf
        exact List.Nodup.sublist (List.take_sublist _ _)
          ((rankDesc_perm _).nodup_iff.mpr henum)
      have hAB : ((rankDesc (wordFreqList text).enum).take maxK).get
          ⟨i, hi3⟩ ≠
          ((rankDesc (wordFreqList text).enum).take maxK).get ⟨j, hj3⟩ := by
        intro habs
        have hij2 : i = j := by
          have h2 := (@List.Nodup.getElem_inj_iff _ _ hnd i hi3 j hj3).mp
            (by simpa [List.get_eq_getElem] using habs)
          exact h2
        omega
      simp only [entBefore, entScore, Bool.or_eq_true, Bool.and_eq_true,
        beq_iff_eq, decide_eq_true_eq] at hR
      have hbr := pow_le_iff_logb
        (max (((rankDesc (wordFreqList text).enum).take maxK).get
          ⟨j, hj3⟩).2.1.length 2)
        ((((rankDesc (wordFreqList text).enum).take maxK).get ⟨j, hj3⟩).2.2)
        (max (((rankDesc (wordFreqList text).enum).take maxK).get
          ⟨i, hi3⟩).2.1.length 2)
        ((((rankDesc (wordFreqList text).enum).take maxK).get ⟨i, hi3⟩).2.2)
        (le_max_right _ _) (le_max_right _ _)
      have hkA : kwScore text
          ((((rankDesc (wordFreqList text).enum).take maxK).get
            ⟨i, hi3⟩).2.1) =
          (((((rankDesc (wordFreqList text).enum).take maxK).get
            ⟨i, hi3⟩).2.2 : ℕ) : ℝ) *
            Real.logb 2
              ((max (((rankDesc (wordFreqList text).enum).take maxK).get
                ⟨i, hi3⟩).2.1.length 2 : ℕ) : ℝ) := by
        unfold kwScore
        rw [hspecA.2]
      have hkB : kwScore text
          ((((rankDesc (wordFreqList text).enum).take maxK).get
            ⟨j, hj3⟩).2.1) =
          (((((rankDesc (wordFreqList text).enum).take maxK).get
            ⟨j, hj3⟩).2.2 : ℕ) : ℝ) *
            Real.logb 2
              ((max (((rankDesc (wordFreqList text).enum).take maxK).get
                ⟨j, hj3⟩).2.1.length 2 : ℕ) : ℝ) := by
        unfold kwScore
        rw [hspecB.2]
      constructor
      · rw [hkA, hkB]
        rcases hR with hlt | ⟨heq, -⟩
        · exact hbr.mp (le_of_lt hlt)
        · exact hbr.mp (le_of_eq heq.symm)
      · intro heqk
        rw [hspecA.1, hspecB.1]
        rcases hR with hlt | ⟨heq, hle⟩
        · exfalso
          rw [hkA, hkB] at heqk
          have h3 := pow_le_iff_logb
            (max (((rankDesc (wordFreqList text).enum).take maxK).get
              ⟨i, hi3⟩).2.1.length 2)
            ((((rankDesc (wordFreqList text).enum).take maxK).get
              ⟨i, hi3⟩).2.2)
            (max (((rankDesc (wordFreqList text).enum).take maxK).get
              ⟨j, hj3⟩).2.1.length 2)
            ((((rankDesc (wordFreqList text).enum).take maxK).get
              ⟨j, hj3⟩).2.2)
            (le_max_right _ _) (le_max_right _ _)
          have h4 := h3.mpr (le_of_eq heqk)
          exact absurd h4 (by omega)
        · rcases Nat.lt_or_ge
            ((((rankDesc (wordFreqList text).enum).take maxK).get
              ⟨i, hi3⟩).1)
            ((((rankDesc (wordFreqList text).enum).take maxK).get
              ⟨j, hj3⟩).1) with hpos | hpos
          · exact hpos
          · exfalso
            have heqpos : (((rankDesc (wordFreqList text).enum).take
                maxK).get ⟨i, hi3⟩).1 =
                (((rankDesc (wordFreqList text).enum).take maxK).get
                  ⟨j, hj3⟩).1 := by omega
            have hgA := List.mem_enum_iff_getElem?.mp hAmem
            have hgB := List.mem_enum_iff_getElem?.mp hBmem
            rw [heqpos] at hgA
            rw [hgA] at hgB
            have hsnd : (((rankDesc (wordFreqList text).enum).take
                maxK).get ⟨i, hi3⟩).2 =
                (((rankDesc (wordFreqList text).enum).take maxK).get
                  ⟨j, hj3⟩).2 := Option.some.inj hgB
            exact hAB (Prod.ext heqpos hsnd)

/-- C8 witness: whitespace-only input yields `[]`; the bound and the
filter hold on a concrete extraction. -/
theorem C8_witness :
    extract_keywords_from_text "   " 15 = [] ∧
    (extract_keywords_from_text "hello world hello" 15).length ≤ 15 ∧
    (2 < "hello".length ∧ "hello" ∉ STOPWORDS ∧
      pyIsDigitStr "hello" = false) :=
  ⟨(C8_extract_keywords "   " 15).2.1 (by decide),
   (C8_extract_keywords "hello world hello" 15).1,
   (C8_extract_keywords "hello world hello" 15).2.2.1 "hello" (by decide)⟩
